import Mathlib

/-!
Shallow embedding of the incremental market-data synchronization engine of
`ai-hedge-fund-crypto`: the candle store helpers (`src/src/utils/database.py`),
the market data provider (`src/src/utils/binance_data_provider.py`), the
incremental collector (`src/full_market_collector.py`) and the schema
synchronizer (`src/db_manager.py`).

Instants (Python `datetime` values) are modelled as `Int` millisecond epochs;
decimal price/volume fields as `Rat`.  The PostgreSQL `price_data` table is
modelled as a `List PriceRow` in insertion order; SQL queries used by the code
are modelled row by row on that list.
-/

namespace AiHedgeFund

/-- One OHLCV candle, the columns of a row of `price_data` other than
`symbol`/`interval` (COLUMNS of `src/src/utils/constants.py` minus the
`ignore` field, which `insert_price_data` does not persist). -/
structure Candle where
  open_time : Int
  «open» : Rat
  high : Rat
  low : Rat
  close : Rat
  volume : Rat
  close_time : Int
  quote_volume : Rat
  count : Int
  taker_buy_volume : Rat
  taker_buy_quote_volume : Rat
deriving DecidableEq, Repr

/-- One persisted row of the `price_data` table: a candle tagged with its
symbol and interval (the trailing `symbol`, `interval` columns added by
`_records_from_df`). -/
structure PriceRow where
  symbol : String
  interval : String
  candle : Candle
deriving DecidableEq, Repr

/-- The `price_data` table, in insertion order. -/
abbrev Store : Type := List PriceRow

/-- `insert_price_data` of `src/src/utils/database.py`: no-op on an empty
DataFrame, otherwise a plain `INSERT` of every record (no `ON CONFLICT`
clause, no de-duplication). -/
def insert_price_data (df : List Candle) (symbol interval : String)
    (store : Store) : Store :=
  if df = [] then store
  else store ++ df.map (fun c => PriceRow.mk symbol interval c)

/-- Predicate: a row matches a (symbol, interval) pair. -/
def rowMatches (symbol interval : String) (r : PriceRow) : Bool :=
  r.symbol = symbol ∧ r.interval = interval

/-- Number of rows in the store carrying a given (symbol, interval, open_time)
natural key. -/
def countKey (store : Store) (symbol interval : String) (t : Int) : Nat :=
  (List.filter
    (fun r => rowMatches symbol interval r ∧ r.candle.open_time = t) store).length

/-- The `open_time`s recorded in the store for a (symbol, interval) pair. -/
def openTimes (store : Store) (symbol interval : String) : List Int :=
  (List.filter (rowMatches symbol interval) store).map
    (fun r => r.candle.open_time)

/-- SQL `MAX` over a list of instants: `none` on the empty list. -/
def maxTime? : List Int → Option Int
  | [] => none
  | t :: rest =>
      match maxTime? rest with
      | none => some t
      | some m => some (if t ≤ m then m else t)

/-- `get_last_open_time` of `src/full_market_collector.py`:
`SELECT MAX(open_time) FROM price_data WHERE symbol=%s AND interval=%s`,
returning `none` when the pair has no rows (SQL `MAX` over an empty set is
NULL; a `datetime` value is always truthy in Python, so `row[0] if row and
row[0] else None` returns exactly the non-NULL maximum). -/
def get_last_open_time (store : Store) (symbol interval : String) :
    Option Int :=
  maxTime? (openTimes store symbol interval)

/-- Modelled from the spec: the `Interval` enumeration of
`src/src/utils/constants.py`, which is absent from `src/` (the spec describes
"enumerated granularity, e.g. minute/hour/day variants" with a step duration
per member, `Interval.from_string` and `.to_timedelta`). -/
inductive Interval where
  | m1 | m5 | m15 | m30 | h1 | h4 | d1
deriving DecidableEq, Repr

/-- Modelled from the spec: the wire value of an interval member. -/
def Interval.value : Interval → String
  | .m1 => "1m"
  | .m5 => "5m"
  | .m15 => "15m"
  | .m30 => "30m"
  | .h1 => "1h"
  | .h4 => "4h"
  | .d1 => "1d"

/-- Modelled from the spec: the step duration of an interval member, in
milliseconds (`to_timedelta().to_pytimedelta()`). -/
def Interval.toMillis : Interval → Int
  | .m1 => 60000
  | .m5 => 300000
  | .m15 => 900000
  | .m30 => 1800000
  | .h1 => 3600000
  | .h4 => 14400000
  | .d1 => 86400000

/-- Modelled from the spec: `Interval.from_string`, the inverse of `value`. -/
def Interval.from_string (s : String) : Option Interval :=
  [Interval.m1, .m5, .m15, .m30, .h1, .h4, .d1].find?
    (fun i => i.value = s)

/-- Modelled from the spec: every member of the enumeration, in declaration
order (`[i.value for i in Interval]`). -/
def Interval.all : List Interval :=
  [Interval.m1, .m5, .m15, .m30, .h1, .h4, .d1]

/-- `datetime(2017, 8, 17)` of `src/full_market_collector.py` as a
millisecond epoch (2017-08-17T00:00:00Z). -/
def epoch2017 : Int := 1502928000000

/-- The fetch window computed by `collect_incremental` of
`src/full_market_collector.py` (lines 31-36 plus the `end_date` argument):
`start_date = last_time + delta` when the pair has a recorded maximum
`open_time`, else `datetime(2017, 8, 17)`; `end_date = datetime.utcnow()`. -/
def collect_window (store : Store) (symbol : String) (interval : Interval)
    (now : Int) : Int × Int :=
  match get_last_open_time store symbol interval.value with
  | some last_time => (last_time + interval.toMillis, now)
  | none => (epoch2017, now)

/-- One raw kline row from the upstream client: a fixed-order 12-field tuple
(`COLUMNS` of the spec's §6), timestamps as integer millisecond epochs and
numeric fields already coerced by `pd.to_numeric` (modelled value-preserving
as `Rat`). -/
structure RawKline where
  open_time : Int
  «open» : Rat
  high : Rat
  low : Rat
  close : Rat
  volume : Rat
  close_time : Int
  quote_volume : Rat
  count : Int
  taker_buy_volume : Rat
  taker_buy_quote_volume : Rat
  ignore : Rat
deriving DecidableEq, Repr

/-- Normalization performed by `get_historical_klines` on the fetched rows:
numeric coercion of the `NUMERIC_COLUMNS` and `pd.to_datetime(unit = ms)` on
`open_time`/`close_time` (instants are millisecond epochs in this model), the
`ignore` column dropped when the row is persisted. -/
def normalize (k : RawKline) : Candle :=
  { open_time := k.open_time
    «open» := k.«open»
    high := k.high
    low := k.low
    close := k.close
    volume := k.volume
    close_time := k.close_time
    quote_volume := k.quote_volume
    count := k.count
    taker_buy_volume := k.taker_buy_volume
    taker_buy_quote_volume := k.taker_buy_quote_volume }

/-- The cache query of `get_historical_klines`:
`SELECT ... FROM price_data WHERE symbol=%s AND interval=%s AND open_time
BETWEEN %s AND %s ORDER BY open_time`. -/
def query_price_data (store : Store) (symbol interval : String)
    (startT endT : Int) : List Candle :=
  List.insertionSort (fun a b => a.open_time ≤ b.open_time)
    ((List.filter
        (fun r => rowMatches symbol interval r ∧
          startT ≤ r.candle.open_time ∧ r.candle.open_time ≤ endT) store).map
      (fun r => r.candle))

/-- 30 days in milliseconds (`timedelta(days=30)`). -/
def thirtyDaysMs : Int := 2592000000

/-- Result of one `get_historical_klines` call: the returned rows, the store
after the call, and whether the upstream client was contacted. -/
structure FetchResult where
  rows : List Candle
  store : Store
  upstreamCalled : Bool
deriving DecidableEq, Repr

/-- The symbol formatting `symbol.replace("/", "")`: every slash removed. -/
def format_symbol (symbol : String) : String :=
  String.mk (symbol.data.filter (fun c => c ≠ '/'))

/-- `BinanceDataProvider.get_historical_klines` of
`src/src/utils/binance_data_provider.py`.  `upstream` stands for the
`client.get_historical_klines` collaborator call, which either returns raw
rows or raises.  Defaults: `start_date = now - 30 days`, `end_date = now`
when omitted.  With `use_cache` set, a non-empty cache query is returned
as-is without contacting upstream.  Otherwise upstream is called inside a
`try` block; on success the rows are normalized and — only when `use_cache`
is set — persisted via `insert_price_data`; on error an empty frame is
returned (the error is logged, not re-raised). -/
def get_historical_klines (store : Store)
    (upstream : Except String (List RawKline)) (symbol timeframe : String)
    (start_date end_date : Option Int) (use_cache : Bool) (now : Int) :
    FetchResult :=
  let formatted_symbol := format_symbol symbol
  let startT := start_date.getD (now - thirtyDaysMs)
  let endT := end_date.getD now
  let df_cache := query_price_data store formatted_symbol timeframe startT endT
  if use_cache ∧ df_cache ≠ [] then
    { rows := df_cache, store := store, upstreamCalled := false }
  else
    match upstream with
    | .error _ => { rows := [], store := store, upstreamCalled := true }
    | .ok klines =>
        let df := klines.map normalize
        { rows := df
          store :=
            if use_cache then
              insert_price_data df formatted_symbol timeframe store
            else store
          upstreamCalled := true }

/-- Outcome of one `collect_incremental` call for a pair: either the provider
call succeeded, or it raised and the exception was caught and logged by the
`except` clause. -/
inductive PairStatus where
  | fetched
  | fetchFailed
deriving DecidableEq, Repr

/-- Control flow of `collect_incremental` of `src/full_market_collector.py`.
`cursorResult` stands for the `get_last_open_time` database round trip (which
may raise, e.g. on an aborted connection) and `fetchResult` for the
`provider.get_historical_klines` call.  The `try` block wraps ONLY the
provider call: an exception from `get_last_open_time` propagates to the
caller, an exception from the provider call is caught and printed. -/
def collect_incremental (cursorResult : Except String (Option Int))
    (fetchResult : Except String Unit) : Except String PairStatus :=
  match cursorResult with
  | .error e => .error e
  | .ok _ =>
      match fetchResult with
      | .error _ => .ok .fetchFailed
      | .ok _ => .ok .fetched

/-- One outer cycle of `main` of `src/full_market_collector.py`: run
`collect_incremental` for every (symbol, interval) pair in order; `beh`
gives each pair's cursor-resolution and fetch behaviour.  An uncaught
exception from `collect_incremental` propagates and aborts the cycle. -/
def run_cycle (pairs : List (String × String))
    (beh : String × String → Except String (Option Int) × Except String Unit) :
    Except String (List ((String × String) × PairStatus)) :=
  match pairs with
  | [] => .ok []
  | p :: rest =>
      match collect_incremental (beh p).1 (beh p).2 with
      | .error e => .error e
      | .ok st =>
          match run_cycle rest beh with
          | .error e => .error e
          | .ok l => .ok ((p, st) :: l)

/-- One entry of `get_exchange_info()["symbols"]`. -/
structure ExchangeSymbolInfo where
  symbol : String
  status : String
deriving DecidableEq, Repr

/-- `get_all_symbols` of `src/full_market_collector.py`: the symbols of the
exchange info whose status is `TRADING`. -/
def get_all_symbols (info : List ExchangeSymbolInfo) : List String :=
  (List.filter (fun s => s.status = "TRADING") info).map
    (fun s => s.symbol)

/-- The (symbol, interval) pairs iterated by cycle `n` of `main` of
`src/full_market_collector.py`.  `symbolUniverse k` is the exchange info the
upstream would report at the start of cycle `k`; `main` computes
`symbols = get_all_symbols(provider.client)` ONCE before entering
`while True`, so every cycle iterates the startup symbol list. -/
def main_cycle_pairs (symbolUniverse : Nat → List ExchangeSymbolInfo)
    (_n : Nat) : List (String × String) :=
  let symbols := get_all_symbols (symbolUniverse 0)
  let intervals := Interval.all.map Interval.value
  symbols.flatMap (fun s => intervals.map (fun i => (s, i)))

/-! ## Schema synchronizer (`src/db_manager.py`)

A declarative schema is modelled as the structured output of the regex pass
of `parse_schema`: a list of `(table name, body lines)` pairs, each body line
already stripped and with its trailing comma removed (the regex
`CREATE TABLE IF NOT EXISTS (\w+) \((.*?)\);` yields one match per table and
`body.splitlines()` the lines).  The live catalog is a list of
`(table name, column names)` pairs.  Executing DDL against PostgreSQL is
modelled by `execCreate` / `execAddColumn`; a line of a table body defines a
column exactly when it is not a table-level constraint line
(`PRIMARY KEY`, `FOREIGN KEY`, `UNIQUE`, `CHECK`, `CONSTRAINT`, `EXCLUDE`),
and `ALTER TABLE t ADD COLUMN <constraint line>` is a SQL error. -/

/-- First whitespace-separated token of a line (`line.split()[0]`; empty
lines are filtered out before this is taken, and body lines arrive already
stripped). -/
def firstWord (line : String) : String :=
  String.mk ((line.data.dropWhile (fun c => c = ' ')).takeWhile
    (fun c => c ≠ ' '))

/-- `line.upper().startswith(p)` for an already-uppercase pattern `p`. -/
def upperStartsWith (line p : String) : Bool :=
  List.isPrefixOf p.data (line.data.map Char.toUpper)

/-- Does a body line declare a table-level constraint rather than a column?
(PostgreSQL semantics of the create statement, not part of the Python.) -/
def isConstraintLine (line : String) : Bool :=
  ["PRIMARY KEY", "FOREIGN KEY", "UNIQUE", "CHECK", "CONSTRAINT", "EXCLUDE"].any
    (fun p => upperStartsWith line p)

/-- The column list `parse_schema` extracts from a table body: every
non-empty line not beginning with `FOREIGN KEY` (case-insensitive), as a
(first token, full line) pair.  Note that table-level constraint lines other
than foreign keys are NOT excluded. -/
def parse_table_columns (body : List String) : List (String × String) :=
  (body.filter
      (fun line => line ≠ "" ∧ ¬ upperStartsWith line "FOREIGN KEY")).map
    (fun line => (firstWord line, line))

/-- A declarative schema: `(table, body lines)` pairs in match order. -/
abbrev SchemaText : Type := List (String × List String)

/-- The live catalog: `(table, column names)` pairs. -/
abbrev Catalog : Type := List (String × List String)

/-- `SELECT to_regclass(%s)` followed by
`SELECT column_name FROM information_schema.columns WHERE table_name=%s`:
the column list of the first table with the given name, or `none`. -/
def lookupTable : Catalog → String → Option (List String)
  | [], _ => none
  | e :: rest, name => if e.1 = name then some e.2 else lookupTable rest name

/-- Replace the column list of the (first entry of the) named table. -/
def updateTable (cat : Catalog) (name : String) (cols : List String) :
    Catalog :=
  match cat with
  | [] => []
  | e :: rest =>
      if e.1 = name then (name, cols) :: rest
      else e :: updateTable rest name cols

/-- A DDL statement executed by `ensure_schema`. -/
inductive DDL where
  | createTable (table : String)
  | addColumn (table col : String)
deriving DecidableEq, Repr

/-- The columns a `CREATE TABLE` statement with the given body defines:
one per non-constraint non-empty line, named by the line's first token
(PostgreSQL semantics). -/
def createdColumns (body : List String) : List String :=
  (body.filter (fun line => line ≠ "" ∧ ¬ isConstraintLine line)).map firstWord

/-- Execute `info["create"]` verbatim: creates the table's columns; a
duplicate column name in the body is a SQL error. -/
def execCreate (body : List String) : Except String (List String) :=
  if (createdColumns body).Nodup then .ok (createdColumns body)
  else .error "duplicate column in CREATE TABLE"

/-- Execute `ALTER TABLE {table} ADD COLUMN {definition}`: a SQL error when
the definition fragment is a constraint line or the column already exists,
otherwise appends the column to the table. -/
def execAddColumn (cat : Catalog) (table : String) (defn : String) :
    Except String Catalog :=
  if isConstraintLine defn then .error "syntax error in ADD COLUMN"
  else
    match lookupTable cat table with
    | none => .error "no such table"
    | some cols =>
        if firstWord defn ∈ cols then .error "duplicate column"
        else .ok (updateTable cat table (cols ++ [firstWord defn]))

/-- The inner `for col_name, definition in info["columns"]` loop of
`ensure_schema`: for each parsed column whose name is not in the snapshot
`existing` of the live column set, execute an `ADD COLUMN`; a DDL error
aborts the pass (and PostgreSQL rolls the transaction back). -/
def addMissingColumns (cat : Catalog) (table : String)
    (existing : List String) :
    List (String × String) → Except String (Catalog × List DDL)
  | [] => .ok (cat, [])
  | (col, defn) :: rest =>
      if col ∈ existing then addMissingColumns cat table existing rest
      else
        match execAddColumn cat table defn with
        | .error e => .error e
        | .ok cat2 =>
            match addMissingColumns cat2 table existing rest with
            | .error e => .error e
            | .ok (cat3, acts) => .ok (cat3, .addColumn table col :: acts)

/-- The `for table, info in schema.items()` loop of `ensure_schema`:
create each absent table verbatim, otherwise add the parsed columns missing
from the live column set; returns the catalog after commit and the DDL
executed, or the first DDL error (in which case nothing commits). -/
def ensure_schema_tables (schema : SchemaText) (cat : Catalog)
    (acts : List DDL) : Except String (Catalog × List DDL) :=
  match schema with
  | [] => .ok (cat, acts)
  | (table, body) :: rest =>
      match lookupTable cat table with
      | none =>
          match execCreate body with
          | .error e => .error e
          | .ok cols =>
              ensure_schema_tables rest (cat ++ [(table, cols)])
                (acts ++ [.createTable table])
      | some existing =>
          match addMissingColumns cat table existing
              (parse_table_columns body) with
          | .error e => .error e
          | .ok (cat2, newActs) =>
              ensure_schema_tables rest cat2 (acts ++ newActs)

/-- `ensure_schema` of `src/db_manager.py`, applied to a parsed schema and a
live catalog. -/
def ensure_schema (schema : SchemaText) (cat : Catalog) :
    Except String (Catalog × List DDL) :=
  ensure_schema_tables schema cat []

/-! ## Predicates for the schema synchronizer claims -/

/-- Every non-empty body line is a plain column definition or a FOREIGN KEY
clause (no other table-level constraint line such as `PRIMARY KEY (...)`). -/
abbrev plainBody (body : List String) : Prop :=
  ∀ line ∈ body, line ≠ "" →
    isConstraintLine line = false ∨ upperStartsWith line "FOREIGN KEY" = true

/-- Every table body of the schema is plain. -/
abbrev plainSchema (schema : SchemaText) : Prop :=
  ∀ e ∈ schema, plainBody e.2

/-- Catalog extension order: every table of `cat` is still present in `cat'`
with its column list extended on the right only. -/
def CatLE (cat cat' : Catalog) : Prop :=
  ∀ t cs, lookupTable cat t = some cs →
    ∃ ext, lookupTable cat' t = some (cs ++ ext)

/-- The catalog holds the table of a schema entry with every parsed column
name present. -/
def TableCovered (cat : Catalog) (tb : String × List String) : Prop :=
  ∃ cs, lookupTable cat tb.1 = some cs ∧
    ∀ p ∈ parse_table_columns tb.2, p.1 ∈ cs

/-! ## Concrete test fixtures -/

/-- A concrete candle with `open_time = 0`. -/
def candle0 : Candle := ⟨0, 1, 2, 0, 1, 5, 59999, 5, 3, 1, 1⟩

/-- A concrete candle with `open_time = 3600000`. -/
def candle1 : Candle := ⟨3600000, 1, 2, 0, 1, 5, 3659999, 5, 3, 1, 1⟩

/-- A concrete persisted row for the pair (BTCUSDT, 1h). -/
def rowBTC : PriceRow := ⟨"BTCUSDT", "1h", candle0⟩

/-- A concrete raw upstream kline row. -/
def rawK : RawKline := ⟨0, 1, 2, 0, 1, 5, 59999, 5, 3, 1, 1, 0⟩

/-- Per-pair behaviour where cursor resolution for symbol `AAA` raises and
everything else succeeds. -/
def cursorFailBeh :
    String × String → Except String (Option Int) × Except String Unit :=
  fun p => if p.1 = "AAA" then (.error "db error", .ok ()) else (.ok none, .ok ())

/-- Per-pair behaviour where the fetch for symbol `AAA` raises and
everything else succeeds. -/
def fetchFailBeh :
    String × String → Except String (Option Int) × Except String Unit :=
  fun p =>
    if p.1 = "AAA" then (.ok none, .error "timeout") else (.ok none, .ok ())

/-- A symbol universe that gains a tradable symbol after startup. -/
def exUniverse : Nat → List ExchangeSymbolInfo :=
  fun n =>
    if n = 0 then [⟨"AAA", "TRADING"⟩]
    else [⟨"AAA", "TRADING"⟩, ⟨"BBB", "TRADING"⟩]

/-- A schema whose table body holds a table-level `PRIMARY KEY` line, as a
real `init.sql` may: `parse_schema` does not exclude it from the column
list. -/
def exSchema : SchemaText :=
  [("price_data", ["open_time TIMESTAMP", "PRIMARY KEY (open_time)"])]

/-- The catalog produced by a successful first `ensure_schema` run of
`exSchema` on an empty catalog. -/
def exSchemaCat : Catalog := [("price_data", ["open_time"])]

/-- A plain two-column schema (the spec's §8 example). -/
def exPlainSchema : SchemaText :=
  [("price_data", ["open_time TIMESTAMP", "open NUMERIC"])]

/-- The catalog produced by a successful first `ensure_schema` run of
`exPlainSchema` on an empty catalog. -/
def exPlainCat : Catalog := [("price_data", ["open_time", "open"])]

/-! ## Helper lemmas -/

theorem maxTime?_eq_none_iff (l : List Int) : maxTime? l = none ↔ l = [] := by
  cases l with
  | nil => simp [maxTime?]
  | cons t rest => cases h : maxTime? rest <;> simp [maxTime?, h]

theorem maxTime?_mem {l : List Int} {m : Int} (h : maxTime? l = some m) :
    m ∈ l := by
  induction l generalizing m with
  | nil => simp [maxTime?] at h
  | cons t rest ih =>
      cases hr : maxTime? rest with
      | none =>
          rw [maxTime?, hr] at h
          simp at h
          simp [h]
      | some m' =>
          rw [maxTime?, hr] at h
          simp at h
          by_cases hle : t ≤ m'
          · simp [hle] at h
            exact List.mem_cons_of_mem _ (h ▸ ih hr)
          · simp [hle] at h
            simp [h]

theorem maxTime?_le {l : List Int} {m : Int} (h : maxTime? l = some m) :
    ∀ t ∈ l, t ≤ m := by
  induction l generalizing m with
  | nil => simp [maxTime?] at h
  | cons t rest ih =>
      cases hr : maxTime? rest with
      | none =>
          rw [maxTime?, hr] at h
          simp at h
          have : rest = [] := (maxTime?_eq_none_iff rest).mp hr
          subst this
          simp [h]
      | some m' =>
          rw [maxTime?, hr] at h
          simp at h
          intro x hx
          rcases List.mem_cons.mp hx with hx | hx
          · subst hx
            by_cases hle : x ≤ m' <;> simp [hle] at h <;> omega
          · have hxm' : x ≤ m' := ih hr x hx
            by_cases hle : t ≤ m' <;> simp [hle] at h <;> omega

theorem maxTime?_isSome_of_ne_nil {l : List Int} (h : l ≠ []) :
    ∃ m, maxTime? l = some m := by
  cases hm : maxTime? l with
  | none => exact absurd ((maxTime?_eq_none_iff l).mp hm) h
  | some m => exact ⟨m, rfl⟩

/-! ## Claims about the incremental collector window -/

/-- C1: one ingestion step for a (symbol, interval) pair resolves the fetch
window as follows: if the store holds at least one candle for the pair, the
window starts exactly one interval-step after the maximum recorded
`open_time` and ends at the current time; if the store holds none, it starts
at the fixed historical epoch 2017-08-17 and ends at the current time. -/
theorem collect_window_spec (store : Store) (symbol : String)
    (interval : Interval) (now : Int) :
    ((openTimes store symbol interval.value ≠ []) →
      ∃ m, m ∈ openTimes store symbol interval.value ∧
        (∀ t ∈ openTimes store symbol interval.value, t ≤ m) ∧
        collect_window store symbol interval now =
          (m + interval.toMillis, now)) ∧
    ((openTimes store symbol interval.value = []) →
      collect_window store symbol interval now = (epoch2017, now)) := by
  constructor
  · intro hne
    obtain ⟨m, hm⟩ := maxTime?_isSome_of_ne_nil hne
    refine ⟨m, maxTime?_mem hm, maxTime?_le hm, ?_⟩
    simp [collect_window, get_last_open_time, hm]
  · intro hnil
    have : maxTime? (openTimes store symbol interval.value) = none :=
      (maxTime?_eq_none_iff _).mpr hnil
    simp [collect_window, get_last_open_time, this]

/-- Witness for C1 at a concrete one-row store and at the empty store. -/
theorem collect_window_spec_witness :
    ((openTimes [rowBTC] "BTCUSDT" (Interval.h1).value ≠ []) ∧
      ∃ m, m ∈ openTimes [rowBTC] "BTCUSDT" (Interval.h1).value ∧
        (∀ t ∈ openTimes [rowBTC] "BTCUSDT" (Interval.h1).value, t ≤ m) ∧
        collect_window [rowBTC] "BTCUSDT" Interval.h1 7200000 =
          (m + (Interval.h1).toMillis, 7200000)) ∧
    collect_window [] "BTCUSDT" Interval.h1 7200000 = (epoch2017, 7200000) :=
  ⟨⟨by decide,
    (collect_window_spec [rowBTC] "BTCUSDT" Interval.h1 7200000).1 (by decide)⟩,
    (collect_window_spec [] "BTCUSDT" Interval.h1 7200000).2 (by decide)⟩

/-- C2 (code behaviour at the failing input): `insert_price_data` is a plain
`INSERT` without conflict detection, so inserting the same single-candle
batch twice leaves TWO rows with the same (symbol, interval, open_time)
key — the claimed invariant of exactly one row fails. -/
theorem insert_price_data_duplicate_rows :
    countKey
      (insert_price_data [candle0] "BTCUSDT" "1h"
        (insert_price_data [candle0] "BTCUSDT" "1h" [])) "BTCUSDT" "1h" 0
      = 2 := by decide

/-- C10: with `start_date` omitted the window defaults to starting 30 days
before the current time, and with `end_date` omitted to ending at the
current time, so a call with neither bound fetches exactly the most recent
30 days. -/
theorem get_historical_klines_default_window (store : Store)
    (upstream : Except String (List RawKline)) (symbol timeframe : String)
    (use_cache : Bool) (now : Int) :
    get_historical_klines store upstream symbol timeframe none none
        use_cache now =
      get_historical_klines store upstream symbol timeframe
        (some (now - thirtyDaysMs)) (some now) use_cache now := rfl

/-! ## Claims about the market data provider -/

/-- C5: with `use_cache` set, if the cache query for the requested range
returns at least one row, those rows are returned as-is, the store is left
unchanged and the upstream provider is never contacted — any non-empty
partial coverage short-circuits the fetch. -/
theorem get_historical_klines_cache_hit (store : Store)
    (upstream : Except String (List RawKline)) (symbol timeframe : String)
    (start_date end_date : Option Int) (now : Int)
    (h : query_price_data store (format_symbol symbol) timeframe
        (start_date.getD (now - thirtyDaysMs)) (end_date.getD now) ≠ []) :
    get_historical_klines store upstream symbol timeframe start_date
        end_date true now =
      { rows := query_price_data store (format_symbol symbol) timeframe
          (start_date.getD (now - thirtyDaysMs)) (end_date.getD now),
        store := store, upstreamCalled := false } := by
  simp [get_historical_klines, h]

/-- Witness for C5: a one-row store covering part of the range short-circuits
the fetch even though upstream would have returned an error. -/
theorem get_historical_klines_cache_hit_witness :
    (query_price_data [rowBTC] (format_symbol "BTC/USDT") "1h"
        ((some 0).getD (7200000 - thirtyDaysMs)) ((some 7200000).getD 7200000)
        ≠ []) ∧
    get_historical_klines [rowBTC] (.error "down") "BTC/USDT" "1h" (some 0)
        (some 7200000) true 7200000 =
      { rows := [candle0], store := [rowBTC], upstreamCalled := false } :=
  ⟨by decide,
    (get_historical_klines_cache_hit [rowBTC] (.error "down") "BTC/USDT" "1h"
        (some 0) (some 7200000) 7200000 (by decide)).trans (by decide)⟩

/-- C6 counterexample: with `use_cache` unset the call reaches the upstream
fetch path and returns the normalized rows, but nothing is persisted to the
store — contradicting the claim that every upstream fetch is persisted via
`insertBatch` before returning. -/
theorem get_historical_klines_no_persist_counterexample :
    (get_historical_klines [] (.ok [rawK]) "BTCUSDT" "1h" (some 0)
        (some 7200000) false 7200000).rows = [candle0] ∧
    (get_historical_klines [] (.ok [rawK]) "BTCUSDT" "1h" (some 0)
        (some 7200000) false 7200000).store = [] := by decide

/-- C6 (amended): on the upstream fetch path (`use_cache` unset, or set with
an empty cache query), the upstream rows are normalized and returned, and
they are persisted via `insert_price_data` exactly when `use_cache` is set;
with `use_cache` unset the store is left untouched. -/
theorem get_historical_klines_persist_only_with_cache (store : Store)
    (klines : List RawKline) (symbol timeframe : String)
    (start_date end_date : Option Int) (use_cache : Bool) (now : Int)
    (hmiss : use_cache = false ∨
      query_price_data store (format_symbol symbol) timeframe
        (start_date.getD (now - thirtyDaysMs)) (end_date.getD now) = []) :
    get_historical_klines store (.ok klines) symbol timeframe start_date
        end_date use_cache now =
      { rows := klines.map normalize,
        store :=
          if use_cache then
            insert_price_data (klines.map normalize) (format_symbol symbol)
              timeframe store
          else store,
        upstreamCalled := true } := by
  rcases hmiss with h | h
  · subst h
    simp [get_historical_klines]
  · simp [get_historical_klines, h]

/-- Witness for C6 (amended): a cache miss with `use_cache` set persists the
normalized row. -/
theorem get_historical_klines_persist_only_with_cache_witness :
    (query_price_data [] (format_symbol "BTCUSDT") "1h"
        ((some 0).getD (7200000 - thirtyDaysMs)) ((some 7200000).getD 7200000)
        = []) ∧
    get_historical_klines [] (.ok [rawK]) "BTCUSDT" "1h" (some 0)
        (some 7200000) true 7200000 =
      { rows := [candle0], store := [rowBTC], upstreamCalled := true } :=
  ⟨by decide,
    (get_historical_klines_persist_only_with_cache [] [rawK] "BTCUSDT" "1h"
        (some 0) (some 7200000) true 7200000 (Or.inr (by decide))).trans
      (by decide)⟩

/-- C7: when the call reaches the upstream fetch path and the
fetch-normalize-persist phase raises, the `except` clause logs the error and
the call returns an empty sequence with the store untouched; no error is
propagated (the model function is total and yields a normal result). -/
theorem get_historical_klines_upstream_error (store : Store) (e : String)
    (symbol timeframe : String) (start_date end_date : Option Int)
    (use_cache : Bool) (now : Int)
    (hmiss : use_cache = false ∨
      query_price_data store (format_symbol symbol) timeframe
        (start_date.getD (now - thirtyDaysMs)) (end_date.getD now) = []) :
    get_historical_klines store (.error e) symbol timeframe start_date
        end_date use_cache now =
      { rows := [], store := store, upstreamCalled := true } := by
  rcases hmiss with h | h
  · subst h
    simp [get_historical_klines]
  · simp [get_historical_klines, h]

/-- Witness for C7: an upstream failure on an empty cache returns the empty
frame. -/
theorem get_historical_klines_upstream_error_witness :
    (query_price_data [] (format_symbol "BTCUSDT") "1h"
        ((some 0).getD (7200000 - thirtyDaysMs)) ((some 7200000).getD 7200000)
        = []) ∧
    get_historical_klines [] (.error "timeout") "BTCUSDT" "1h" (some 0)
        (some 7200000) true 7200000 =
      { rows := [], store := [], upstreamCalled := true } :=
  ⟨by decide,
    get_historical_klines_upstream_error [] "timeout" "BTCUSDT" "1h" (some 0)
      (some 7200000) true 7200000 (Or.inr (by decide))⟩

/-! ## Claims about the ingestion scheduler -/

/-- C8 counterexample: a failure arising during one pair's CURSOR RESOLUTION
(`get_last_open_time`, which sits outside the `try` block of
`collect_incremental`) propagates and aborts the cycle, so the other pair is
never ingested — the claim that any per-pair failure is caught and the other
N-1 pairs still run is false. -/
theorem run_cycle_cursor_failure_counterexample :
    run_cycle [("AAA", "1h"), ("BBB", "1h")] cursorFailBeh =
      .error "db error" ∧
    ¬ ∃ results,
        run_cycle [("AAA", "1h"), ("BBB", "1h")] cursorFailBeh =
          .ok results ∧
        (("BBB", "1h"), PairStatus.fetched) ∈ results := by
  constructor
  · rfl
  · rintro ⟨results, hres, -⟩
    rw [show run_cycle [("AAA", "1h"), ("BBB", "1h")] cursorFailBeh =
        .error "db error" from rfl] at hres
    exact Except.noConfusion hres

/-- C8 (amended): failures arising during a pair's FETCH step are caught by
the `try` block of `collect_incremental` and logged, and the scheduler still
runs the ingestion step for every other pair of the cycle; provided every
pair's cursor resolution succeeds, the cycle processes every pair, marking
the failing ones `fetchFailed`. -/
theorem run_cycle_fetch_failures_isolated (pairs : List (String × String))
    (beh : String × String → Except String (Option Int) × Except String Unit)
    (h : ∀ p ∈ pairs, ∃ v, (beh p).1 = .ok v) :
    ∃ results, run_cycle pairs beh = .ok results ∧
      results.map Prod.fst = pairs := by
  induction pairs with
  | nil => exact ⟨[], rfl, rfl⟩
  | cons p rest ih =>
      obtain ⟨v, hv⟩ := h p (List.mem_cons_self p rest)
      obtain ⟨results, hres, hmap⟩ :=
        ih (fun q hq => h q (List.mem_cons_of_mem p hq))
      cases hf : (beh p).2 with
      | error e =>
          refine ⟨(p, .fetchFailed) :: results, ?_, by simp [hmap]⟩
          simp [run_cycle, collect_incremental, hv, hf, hres]
      | ok u =>
          refine ⟨(p, .fetched) :: results, ?_, by simp [hmap]⟩
          simp [run_cycle, collect_incremental, hv, hf, hres]

/-- Witness for C8 (amended): with one fetch failing out of two pairs, both
pairs are still processed in the cycle. -/
theorem run_cycle_fetch_failures_isolated_witness :
    (∀ p ∈ [("AAA", "1h"), ("BBB", "1h")], ∃ v,
      (fetchFailBeh p).1 = .ok v) ∧
    ∃ results,
      run_cycle [("AAA", "1h"), ("BBB", "1h")] fetchFailBeh = .ok results ∧
      results.map Prod.fst = [("AAA", "1h"), ("BBB", "1h")] :=
  ⟨fun p hp => ⟨none, by fin_cases hp <;> rfl⟩,
    run_cycle_fetch_failures_isolated [("AAA", "1h"), ("BBB", "1h")]
      fetchFailBeh (fun p hp => ⟨none, by fin_cases hp <;> rfl⟩)⟩

/-- C9 counterexample: `main` computes the symbol list once before entering
the loop, so cycle 1 does not iterate over symbol `BBB` although `BBB` is in
the tradable universe current at cycle 1's start — the claim that every
cycle re-queries the symbol universe is false. -/
theorem main_cycle_pairs_stale_counterexample :
    "BBB" ∈ get_all_symbols (exUniverse 1) ∧
    ∀ i ∈ Interval.all.map Interval.value,
      ("BBB", i) ∉ main_cycle_pairs exUniverse 1 := by decide

/-- C9 (amended): the tradable symbol universe is queried exactly once at
startup; every cycle iterates over the startup symbol set (the pairs of
cycle `n` equal those of cycle 0, and the symbols iterated are exactly the
tradable symbols of the startup universe), so additions and removals between
cycles are not picked up. -/
theorem main_cycle_pairs_startup_universe
    (symbolUniverse : Nat → List ExchangeSymbolInfo) (n : Nat) :
    main_cycle_pairs symbolUniverse n = main_cycle_pairs symbolUniverse 0 ∧
    ∀ s : String, (∃ i, (s, i) ∈ main_cycle_pairs symbolUniverse n) ↔
      s ∈ get_all_symbols (symbolUniverse 0) := by
  refine ⟨rfl, fun s => ⟨?_, ?_⟩⟩
  · rintro ⟨i, hi⟩
    simp only [main_cycle_pairs, List.mem_flatMap, List.mem_map] at hi
    obtain ⟨s', hs', i', -, heq⟩ := hi
    obtain ⟨rfl, -⟩ := Prod.mk.injEq .. ▸ heq
    exact hs'
  · intro hs
    refine ⟨"1m", ?_⟩
    simp only [main_cycle_pairs, List.mem_flatMap, List.mem_map]
    exact ⟨s, hs, "1m", ⟨Interval.m1, by simp [Interval.all, Interval.value]⟩,
      rfl⟩

/-! ## Schema synchronizer lemmas -/

theorem lookupTable_append_left {cat : Catalog} {t : String}
    {cs : List String} (h : lookupTable cat t = some cs) (l : Catalog) :
    lookupTable (cat ++ l) t = some cs := by
  induction cat with
  | nil => simp [lookupTable] at h
  | cons e rest ih =>
      rw [lookupTable] at h
      by_cases he : e.1 = t
      · simp [lookupTable, he] at h ⊢
        exact h
      · simp [lookupTable, he] at h ⊢
        exact ih h

theorem lookupTable_append_new {cat : Catalog} {t : String}
    (h : lookupTable cat t = none) (cols : List String) :
    lookupTable (cat ++ [(t, cols)]) t = some cols := by
  induction cat with
  | nil => simp [lookupTable]
  | cons e rest ih =>
      rw [lookupTable] at h
      by_cases he : e.1 = t
      · simp [he] at h
      · simp [lookupTable, he] at h ⊢
        exact ih h

theorem lookupTable_update_self {cat : Catalog} {t : String}
    {cs : List String} (h : lookupTable cat t = some cs)
    (cols : List String) :
    lookupTable (updateTable cat t cols) t = some cols := by
  induction cat with
  | nil => simp [lookupTable] at h
  | cons e rest ih =>
      rw [lookupTable] at h
      by_cases he : e.1 = t
      · simp [updateTable, he, lookupTable]
      · rw [updateTable]
        simp only [he, if_false]
        rw [lookupTable]
        simp only [he, if_false]
        exact ih (by simpa [he] using h)

theorem lookupTable_update_other {cat : Catalog} {t t' : String}
    (hne : t' ≠ t) (cols : List String) :
    lookupTable (updateTable cat t cols) t' = lookupTable cat t' := by
  induction cat with
  | nil => simp [updateTable]
  | cons e rest ih =>
      by_cases he : e.1 = t
      · rw [updateTable]
        simp only [he, if_true]
        rw [lookupTable, lookupTable]
        simp [he, Ne.symm hne]
      · rw [updateTable]
        simp only [he, if_false]
        rw [lookupTable, lookupTable]
        by_cases he' : e.1 = t'
        · simp [he']
        · simp [he', ih]

theorem CatLE.rfl (cat : Catalog) : CatLE cat cat :=
  fun _ cs h => ⟨[], by simp [h]⟩

theorem CatLE.trans {a b c : Catalog} (h1 : CatLE a b) (h2 : CatLE b c) :
    CatLE a c := by
  intro t cs h
  obtain ⟨e1, hb⟩ := h1 t cs h
  obtain ⟨e2, hc⟩ := h2 t _ hb
  exact ⟨e1 ++ e2, by simpa [List.append_assoc] using hc⟩

theorem CatLE.append (cat : Catalog) (l : Catalog) : CatLE cat (cat ++ l) :=
  fun _ cs h => ⟨[], by simp [lookupTable_append_left h l]⟩

theorem TableCovered.mono {cat cat' : Catalog} {tb : String × List String}
    (h : TableCovered cat tb) (hle : CatLE cat cat') :
    TableCovered cat' tb := by
  obtain ⟨cs, hcs, hmem⟩ := h
  obtain ⟨ext, hcs'⟩ := hle tb.1 cs hcs
  exact ⟨cs ++ ext, hcs', fun p hp => List.mem_append_left ext (hmem p hp)⟩

theorem execAddColumn_catLE {cat cat2 : Catalog} {t defn : String}
    (h : execAddColumn cat t defn = .ok cat2) : CatLE cat cat2 := by
  unfold execAddColumn at h
  split at h
  · exact absurd h (by simp)
  · split at h
    · exact absurd h (by simp)
    · rename_i cols hlook
      split at h
      · exact absurd h (by simp)
      · rename_i hnotmem
        have hcat2 : cat2 = updateTable cat t (cols ++ [firstWord defn]) := by
          simpa using h.symm
        subst hcat2
        intro t' cs hcs
        by_cases ht : t' = t
        · subst ht
          rw [hlook] at hcs
          obtain rfl : cols = cs := by simpa using hcs
          exact ⟨[firstWord defn], lookupTable_update_self hlook _⟩
        · exact ⟨[], by simp [lookupTable_update_other ht, hcs]⟩

theorem addMissingColumns_catLE {t : String} {existing : List String} :
    ∀ {ps : List (String × String)} {cat cat2 : Catalog} {acts : List DDL},
    addMissingColumns cat t existing ps = .ok (cat2, acts) → CatLE cat cat2 := by
  intro ps
  induction ps with
  | nil =>
      intro cat cat2 acts h
      rw [addMissingColumns] at h
      obtain ⟨rfl, -⟩ : cat = cat2 ∧ acts = [] := by
        simpa using h
      exact CatLE.rfl cat
  | cons p rest ih =>
      obtain ⟨col, defn⟩ := p
      intro cat cat2 acts h
      rw [addMissingColumns] at h
      split at h
      · exact ih h
      · split at h
        · exact absurd h (by simp)
        · rename_i cat' hadd
          split at h
          · exact absurd h (by simp)
          · rename_i cat3 acts3 hrest
            obtain ⟨rfl, -⟩ : cat3 = cat2 ∧ DDL.addColumn t col :: acts3 = acts := by
              simpa using h
            exact (execAddColumn_catLE hadd).trans (ih hrest)

theorem ensure_schema_tables_catLE :
    ∀ {schema : SchemaText} {cat : Catalog} {acts : List DDL}
      {cat' : Catalog} {acts' : List DDL},
    ensure_schema_tables schema cat acts = .ok (cat', acts') →
    CatLE cat cat' := by
  intro schema
  induction schema with
  | nil =>
      intro cat acts cat' acts' h
      rw [ensure_schema_tables] at h
      obtain ⟨rfl, -⟩ : cat = cat' ∧ acts = acts' := by simpa using h
      exact CatLE.rfl cat
  | cons tb rest ih =>
      intro cat acts cat' acts' h
      rw [ensure_schema_tables] at h
      split at h
      · split at h
        · exact absurd h (by simp)
        · exact (CatLE.append cat _).trans (ih h)
      · split at h
        · exact absurd h (by simp)
        · rename_i pair hadd
          exact (addMissingColumns_catLE hadd).trans (ih h)

theorem parse_table_columns_firstWord {body : List String} :
    ∀ p ∈ parse_table_columns body, p.1 = firstWord p.2 := by
  intro p hp
  simp only [parse_table_columns, List.mem_map, List.mem_filter] at hp
  obtain ⟨line, -, rfl⟩ := hp
  rfl

theorem isConstraintLine_of_FK {line : String}
    (h : upperStartsWith line "FOREIGN KEY" = true) :
    isConstraintLine line = true := by
  simp [isConstraintLine, h]

theorem plainBody_parsed_created {body : List String}
    (hplain : plainBody body) :
    ∀ p ∈ parse_table_columns body, p.1 ∈ createdColumns body := by
  intro p hp
  simp only [parse_table_columns, List.mem_map] at hp
  obtain ⟨line, hline, rfl⟩ := hp
  obtain ⟨hbody, hcond⟩ := List.mem_filter.mp hline
  have hcond' := of_decide_eq_true hcond
  have hne : line ≠ "" := hcond'.1
  have hnfk : ¬ upperStartsWith line "FOREIGN KEY" = true := hcond'.2
  have hnc : isConstraintLine line = false := by
    rcases hplain line hbody hne with h | h
    · exact h
    · exact absurd h hnfk
  simp only [createdColumns, List.mem_map]
  exact ⟨line,
    List.mem_filter.mpr ⟨hbody, decide_eq_true ⟨hne, by simp [hnc]⟩⟩, rfl⟩

theorem addMissingColumns_covers {t : String} {existing : List String} :
    ∀ {ps : List (String × String)} {cat cat2 : Catalog} {acts : List DDL}
      {cs : List String},
    addMissingColumns cat t existing ps = .ok (cat2, acts) →
    lookupTable cat t = some cs →
    existing ⊆ cs →
    (∀ p ∈ ps, p.1 = firstWord p.2) →
    ∃ ext, lookupTable cat2 t = some (cs ++ ext) ∧
      ∀ p ∈ ps, p.1 ∈ cs ++ ext := by
  intro ps
  induction ps with
  | nil =>
      intro cat cat2 acts cs h hlook hsub hfw
      rw [addMissingColumns] at h
      obtain ⟨rfl, -⟩ : cat = cat2 ∧ ([] : List DDL) = acts := by simpa using h
      exact ⟨[], by simp [hlook], by simp⟩
  | cons p rest ih =>
      obtain ⟨col, defn⟩ := p
      intro cat cat2 acts cs h hlook hsub hfw
      rw [addMissingColumns] at h
      split at h
      · rename_i hmem
        obtain ⟨ext, hl2, hcov⟩ :=
          ih h hlook hsub (fun q hq => hfw q (List.mem_cons_of_mem _ hq))
        refine ⟨ext, hl2, fun q hq => ?_⟩
        rcases List.mem_cons.mp hq with rfl | hq
        · exact List.mem_append_left ext (hsub hmem)
        · exact hcov q hq
      · rename_i hnotmem
        split at h
        · exact absurd h (by simp)
        · rename_i cat' hadd
          split at h
          · exact absurd h (by simp)
          · rename_i cat3 acts3 hrest
            obtain ⟨rfl, -⟩ :
                cat3 = cat2 ∧ DDL.addColumn t col :: acts3 = acts := by
              simpa using h
            have hcol : col = firstWord defn :=
              hfw (col, defn) (List.mem_cons_self _ _)
            have hcat' : cat' = updateTable cat t (cs ++ [firstWord defn]) := by
              unfold execAddColumn at hadd
              split at hadd
              · exact absurd hadd (by simp)
              · rw [hlook] at hadd
                simp only [Option.some.injEq] at hadd
                split at hadd
                · exact absurd hadd (by simp)
                · simpa using hadd.symm
            have hlook' :
                lookupTable cat' t = some (cs ++ [firstWord defn]) := by
              rw [hcat']
              exact lookupTable_update_self hlook _
            obtain ⟨ext, hl2, hcov⟩ :=
              ih hrest hlook'
                (hsub.trans (List.subset_append_left cs [firstWord defn]))
                (fun q hq => hfw q (List.mem_cons_of_mem _ hq))
            refine ⟨[firstWord defn] ++ ext, ?_, fun q hq => ?_⟩
            · rw [← List.append_assoc]
              exact hl2
            · rcases List.mem_cons.mp hq with rfl | hq
              · rw [hcol]
                simp
              · rw [← List.append_assoc]
                exact hcov q hq

theorem addMissingColumns_all_present {cat : Catalog} {t : String}
    {existing : List String} :
    ∀ {ps : List (String × String)}, (∀ p ∈ ps, p.1 ∈ existing) →
    addMissingColumns cat t existing ps = .ok (cat, []) := by
  intro ps
  induction ps with
  | nil => intro _; rw [addMissingColumns]
  | cons p rest ih =>
      obtain ⟨col, defn⟩ := p
      intro h
      rw [addMissingColumns]
      rw [if_pos (h (col, defn) (List.mem_cons_self _ _))]
      exact ih (fun q hq => h q (List.mem_cons_of_mem _ hq))

theorem ensure_schema_tables_noop :
    ∀ {schema : SchemaText} {cat : Catalog} {acts : List DDL},
    (∀ tb ∈ schema, TableCovered cat tb) →
    ensure_schema_tables schema cat acts = .ok (cat, acts) := by
  intro schema
  induction schema with
  | nil => intro cat acts _; rw [ensure_schema_tables]
  | cons tb0 rest ih =>
      obtain ⟨table, body⟩ := tb0
      intro cat acts h
      obtain ⟨cs, hlook, hmem⟩ := h (table, body) (List.mem_cons_self _ _)
      rw [ensure_schema_tables]
      split
      · rename_i hnone
        exact absurd (hlook.symm.trans hnone) (by simp)
      · rename_i existing hsome
        obtain rfl : existing = cs := by
          have := hlook.symm.trans hsome
          simpa using this.symm
        split
        · rename_i e herr
          rw [addMissingColumns_all_present hmem] at herr
          cases herr
        · rename_i cat2 newActs hok
          rw [addMissingColumns_all_present hmem] at hok
          obtain ⟨rfl, rfl⟩ : cat = cat2 ∧ ([] : List DDL) = newActs := by
            simpa using hok
          rw [List.append_nil]
          exact ih (fun tb' h' => h tb' (List.mem_cons_of_mem _ h'))

theorem ensure_schema_tables_covers :
    ∀ {schema : SchemaText} {cat : Catalog} {acts : List DDL}
      {cat' : Catalog} {acts' : List DDL},
    ensure_schema_tables schema cat acts = .ok (cat', acts') →
    plainSchema schema →
    ∀ tb ∈ schema, TableCovered cat' tb := by
  intro schema
  induction schema with
  | nil =>
      intro cat acts cat' acts' _ _ tb htb
      simp at htb
  | cons tb0 rest ih =>
      obtain ⟨table, body⟩ := tb0
      intro cat acts cat' acts' h hplain tb htb
      have hplainrest : plainSchema rest :=
        fun e he => hplain e (List.mem_cons_of_mem _ he)
      rw [ensure_schema_tables] at h
      rcases List.mem_cons.mp htb with rfl | htb
      · split at h
        · rename_i hnone
          split at h
          · exact absurd h (by simp)
          · rename_i cols hcreate
            have hcols : createdColumns body = cols := by
              unfold execCreate at hcreate
              split at hcreate
              · simpa using hcreate
              · exact absurd hcreate (by simp)
            have hcov : TableCovered (cat ++ [(table, cols)]) (table, body) :=
              ⟨cols, lookupTable_append_new hnone cols,
                fun p hp => hcols ▸
                  plainBody_parsed_created
                    (hplain (table, body) (List.mem_cons_self _ _)) p hp⟩
            exact hcov.mono (ensure_schema_tables_catLE h)
        · rename_i existing hlook
          split at h
          · exact absurd h (by simp)
          · rename_i cat2 newActs hadd
            obtain ⟨ext, hl2, hcov⟩ :=
              addMissingColumns_covers hadd hlook (List.Subset.refl existing)
                parse_table_columns_firstWord
            exact TableCovered.mono ⟨existing ++ ext, hl2, hcov⟩
              (ensure_schema_tables_catLE h)
      · split at h
        · split at h
          · exact absurd h (by simp)
          · exact ih h hplainrest tb htb
        · split at h
          · exact absurd h (by simp)
          · exact ih h hplainrest tb htb

/-! ## Claims about the schema synchronizer -/

/-- C3 counterexample: after a successful first run of `ensure_schema` on
the empty catalog with a schema whose `price_data` body carries a
table-level `PRIMARY KEY (open_time)` line, the second run does NOT leave
the catalog untouched with no DDL executed: `parse_schema` treats the
constraint line as a column named `PRIMARY`, which is missing from the live
column set, so the second run issues an `ADD COLUMN` for it and fails. -/
theorem ensure_schema_second_run_counterexample :
    ensure_schema exSchema [] =
      .ok (exSchemaCat, [DDL.createTable "price_data"]) ∧
    ensure_schema exSchema exSchemaCat =
      .error "syntax error in ADD COLUMN" := ⟨rfl, rfl⟩

/-- C3 (amended): provided every non-empty body line of every table is a
plain column definition or a FOREIGN KEY clause, `ensure_schema` is
idempotent: a second run immediately after a successful first run executes
no CREATE TABLE and no ADD COLUMN statement (its DDL list is empty) and
returns the catalog unchanged. -/
theorem ensure_schema_idempotent_plain (schema : SchemaText)
    (cat cat' : Catalog) (acts : List DDL) (hplain : plainSchema schema)
    (h : ensure_schema schema cat = .ok (cat', acts)) :
    ensure_schema schema cat' = .ok (cat', []) :=
  ensure_schema_tables_noop (ensure_schema_tables_covers h hplain)

/-- Witness for C3 (amended) on the spec's §8 example schema. -/
theorem ensure_schema_idempotent_plain_witness :
    plainSchema exPlainSchema ∧
    ensure_schema exPlainSchema [] =
      .ok (exPlainCat, [DDL.createTable "price_data"]) ∧
    ensure_schema exPlainSchema exPlainCat = .ok (exPlainCat, []) :=
  ⟨by decide, rfl,
    ensure_schema_idempotent_plain exPlainSchema [] exPlainCat
      [DDL.createTable "price_data"] (by decide) rfl⟩

/-- C4: the schema synchronizer is strictly additive: every table and every
column present in the live catalog before a successful synchronization pass
is still present afterwards, with its column list only extended on the
right — tables and columns absent from the declarative schema included (a
failed pass commits nothing at all, the transaction being rolled back). -/
theorem ensure_schema_additive (schema : SchemaText) (cat cat' : Catalog)
    (acts : List DDL) (h : ensure_schema schema cat = .ok (cat', acts)) :
    ∀ t cs, lookupTable cat t = some cs →
      ∃ ext, lookupTable cat' t = some (cs ++ ext) :=
  ensure_schema_tables_catLE h

/-- Witness for C4: a catalog table absent from the declarative schema
survives a pass that creates a new table. -/
theorem ensure_schema_additive_witness :
    (ensure_schema [("trades", ["id INTEGER"])] [("price_data", ["open_time"])] =
      .ok ([("price_data", ["open_time"]), ("trades", ["id"])],
        [DDL.createTable "trades"])) ∧
    ∃ ext, lookupTable [("price_data", ["open_time"]), ("trades", ["id"])]
      "price_data" = some (["open_time"] ++ ext) :=
  ⟨rfl,
    ensure_schema_additive [("trades", ["id INTEGER"])]
      [("price_data", ["open_time"])]
      [("price_data", ["open_time"]), ("trades", ["id"])]
      [DDL.createTable "trades"] rfl "price_data" ["open_time"] rfl⟩

end AiHedgeFund
